import Mathlib

/-!
Shallow embedding of `src/interpretdl/interpreter/functional_information.py`
(`FunctionalInformationInterpreter`).

The file models the two algorithmic components of the repository:

* the body of `interpret` (lines 102-189): label resolution, correlated
  noise sampling, memory-bounded chunked gradient computation, averaging,
  and the optional presentation step, together with the instance-scoped
  session state (`self.predicted_label`, `self.predicted_proba`,
  `self.labels`);
* `init_corr_mat` (lines 229-272): the per-class Pearson correlation
  estimator with the epsilon diagonal repair.

Numbers are modelled exactly: pixel values, gradients and noise are `ℚ`
(the float32/float64 arithmetic of the source, without rounding).  Where
`np.corrcoef` divides by a zero standard deviation the float result is
NaN; this is modelled by `Option`-valued matrix entries (`none` = NaN),
with the square root of the nonzero divisor kept abstract as a function
parameter `sqrtFn : ℚ → ℝ` (instantiating it with the real square root
gives the exact Pearson value; no claim depends on the value).

External collaborators (`predict_fn`, the image pipeline, `np.random.
multivariate_normal`, the visualizer) are modelled as parameters: a
`Predictor` structure for the gradient collaborator (per-sample gradient,
predicted label and predicted probability), a `Sampler` for the
multivariate-normal draw (given the covariance matrix passed by the code
and the draw index, it returns the drawn vector).

A separate, purely static model captures the Python definition-time and
import-time faults of the module (claim about the parameter list, the
`torchvision.models` import and the unbound names read by the first
statements of `interpret`).
-/

namespace FuncInfo

/-- Spatial grid of rational pixel values, height `H`, width `W`. -/
abbrev Grid (H W : ℕ) := Fin H → Fin W → ℚ

/-- A `(3, H, W)` image tensor: channel, then spatial grid. -/
abbrev Image (H W : ℕ) := Fin 3 → Grid H W

/-- Square rational matrix indexed by flattened pixel features. -/
abbrev Mat (d : ℕ) := Fin d → Fin d → ℚ

/-- Row-major flattened index of the pixel `(h, w)`, as used by numpy
`reshape` on a `(H, W)` grid. -/
def pixIdx {H W : ℕ} (h : Fin H) (w : Fin W) : Fin (H * W) :=
  ⟨h.1 * W + w.1, by
    have hw := w.2
    have hh := h.2
    have h1 : h.1 * W + w.1 < (h.1 + 1) * W := by
      rw [Nat.succ_mul]; omega
    have h2 : (h.1 + 1) * W ≤ H * W :=
      Nat.mul_le_mul_right W (Nat.succ_le_of_lt hh)
    omega⟩

/-- Inverse of `pixIdx`: read a grid as a flat length-`H*W` vector
(row-major, as numpy `reshape(n, num_pixels)` does). -/
def gridToVec {H W : ℕ} (g : Grid H W) : Fin (H * W) → ℚ :=
  fun p =>
    have hW : 0 < W := by
      rcases Nat.eq_zero_or_pos W with h0 | h0
      · exfalso
        have hp := p.2
        have hz : H * W = 0 := by rw [h0, Nat.mul_zero]
        omega
      · exact h0
    g ⟨p.1 / W, (Nat.div_lt_iff_lt_mul hW).2 p.2⟩ ⟨p.1 % W, Nat.mod_lt _ hW⟩

/-- Reshape a flat length-`H*W` vector to the `(H, W)` grid (row-major),
modelling `.reshape(1, H, W)` at line 128. -/
def vecToGrid {H W : ℕ} (v : Fin (H * W) → ℚ) : Grid H W :=
  fun h w => v (pixIdx h w)

/-- Python-dict lookup on an association list (`correlation_matrices[k]`
returns the stored value or raises `KeyError`; `none` models the raise). -/
def dictFind {β : Type} (m : List (ℤ × β)) (k : ℤ) : Option β :=
  (m.find? (fun p => p.1 == k)).map Prod.snd

/-- Python-dict insertion on an association list: overwrite the existing
entry for the key if present, otherwise append. -/
def dictInsert {β : Type} (m : List (ℤ × β)) (k : ℤ) (v : β) : List (ℤ × β) :=
  if m.any (fun p => p.1 == k) then
    m.map (fun p => if p.1 == k then (k, v) else p)
  else m ++ [(k, v)]

/-- Keys of an association list, in order. -/
def keys {β : Type} (m : List (ℤ × β)) : List ℤ := m.map Prod.fst

/-- Python slice `xs[a:b]` along axis 0 (indices clamp, as in numpy). -/
def pySlice {α : Type} (xs : List α) (a b : ℕ) : List α :=
  (xs.take b).drop a

/-- The chunks of `data_noised` taken by `interpret` (lines 157-170):
for `split > 1`, the slices `xs[i*chunk:(i+1)*chunk]` for
`i = 0, …, split-2` with `chunk = n // split`, followed by the final
slice `xs[chunk*(split-1):]`; otherwise the whole batch at once. -/
def chunkSlices {α : Type} (xs : List α) (n split : ℕ) : List (List α) :=
  if 1 < split then
    (List.range (split - 1)).map
        (fun i => pySlice xs (i * (n / split)) ((i + 1) * (n / split)))
      ++ [xs.drop (n / split * (split - 1))]
  else [xs]

/-- Per-chunk gradient calls concatenated in original order
(lines 157-170): each chunk is passed to the gradient collaborator,
modelled per sample by `g`, and the chunk results are concatenated with
`np.concatenate(gradient_chunks, axis=0)`; for `split ≤ 1` a single call
on the whole batch is made. -/
def gradientsChunked {α β : Type} (g : α → β) (xs : List α) (n split : ℕ) :
    List β :=
  ((chunkSlices xs n split).map (List.map g)).flatten

/-- Elementwise mean over the sample dimension, `np.mean(gradients,
axis=0, keepdims=True)` at line 172 (the returned `(1, 3, H, W)` array is
modelled by its single element). -/
def avgGradients {H W : ℕ} (grads : List (Image H W)) : Image H W :=
  fun c h w => ((grads.map (fun G => G c h w)).sum) / (grads.length : ℚ)

/-- Elementwise scaling `noise_amount * corr_mat` (line 117). -/
def scaleMat {d : ℕ} (a : ℚ) (M : Mat d) : Mat d :=
  fun i j => a * M i j

/-- The gradient collaborator `self.predict_fn` (external), per sample:
`grad x l` is the gradient of the configured scalar for target label `l`
at input `x`; `label x` / `proba x` are the predicted class and its
probability.  A batch call maps these over the batch. -/
structure Predictor (H W : ℕ) where
  grad : Image H W → ℤ → Image H W
  label : Image H W → ℤ
  proba : Image H W → ℚ

/-- The multivariate-normal sampler `np.random.multivariate_normal`
(external): given the covariance matrix the code passes and the index of
the draw (the loop iteration at line 122), it returns the drawn flat
vector of dimension `H*W`.  Zero mean and independence of the draws are
properties of the random source, outside the embedding. -/
abbrev Sampler (H W : ℕ) := Mat (H * W) → ℕ → (Fin (H * W) → ℚ)

/-- The `n_samples` perturbed copies of the input (lines 119-137): each
loop iteration draws one vector from the sampler with covariance
`noise_amount * corr_mat`, reshapes it to the `(H, W)` grid, repeats it
identically over the 3 channels (`np.repeat(..., 3, axis=1)`) and adds
it to the original input. -/
def dataNoised {H W : ℕ} (s : Sampler H W) (a : ℚ) (M : Mat (H * W))
    (data : Image H W) (n : ℕ) : List (Image H W) :=
  (List.range n).map
    (fun i => fun c h w => data c h w + vecToGrid (s (scaleMat a M) i) h w)

/-- Failures `interpret`'s body can raise: the Python `KeyError` from
`correlation_matrices[labels[0]]` (line 116) and the `IndexError` from
the stale loop index used at `imgs[i]` / `save_path[i]` (lines 180-184). -/
inductive InterpretErr where
  | missingCorrelationEntry (label : ℤ)
  | indexError
  deriving DecidableEq

/-- Instance-scoped session state of the interpreter
(`self.predicted_label`, `self.predicted_proba`, `self.labels`). -/
structure SessionState where
  predicted_label : ℤ
  predicted_proba : ℚ
  labels : ℤ
  deriving DecidableEq

/-- Label resolution (lines 111-114): the supplied label if any,
otherwise the model's predicted class. -/
def resolvedLabel (labels? : Option ℤ) (predicted : ℤ) : ℤ :=
  labels?.getD predicted

/-- The value of the Python loop variable `i` when the presentation block
(lines 174-184) runs: the chunk loop `for i in range(split - 1)` leaves
`i = split - 2` when `split > 1`, otherwise the noise loop
`for i in range(n_samples)` leaves `i = n_samples - 1` (for
`n_samples ≥ 1`). -/
def iFinal (nSamples split : ℕ) : ℕ :=
  if 1 < split then split - 2 else nSamples - 1

/-- Outcome of the presentation block (lines 174-184).  When neither a
save path nor visualization is requested, nothing runs.  Otherwise the
block evaluates `imgs[i]` and `save_path[i]` where `imgs` and the
preprocessed save-path list both have length 1 (single-input assert), so
it succeeds exactly when the stale index `i` is 0; it never modifies
`avg_gradients` (it only reads `np.abs(avg_gradients[0])`, a fresh
array). -/
def presentOutcome (visual : Bool) (savePath : Option String)
    (nSamples split : ℕ) : Except InterpretErr Unit :=
  if savePath = none ∧ visual = false then .ok ()
  else if iFinal nSamples split = 0 then .ok () else .error .indexError

/-- The body of `interpret` from line 105 on, with the loaded
`correlation_matrices` dict, the preprocessed input `data` (the single
image of the `(1, 3, H, W)` batch) and the collaborators as parameters.
Returns the explanation map (or the raised error) together with the
updated session state.  Mirrors the source order: the first `predict_fn`
call and the session-state writes (lines 108-110) happen before the dict
lookup (line 116); noise sampling (lines 119-137), chunked gradients
(lines 157-170), the mean (line 172) and presentation (lines 174-184)
follow; `self.labels` is written (line 187) only when the call reaches
line 189. -/
def interpretRun {H W : ℕ} (pred : Predictor H W) (s : Sampler H W)
    (corrMats : List (ℤ × Mat (H * W))) (data : Image H W)
    (labels? : Option ℤ) (noiseAmount : ℚ) (nSamples split : ℕ)
    (visual : Bool) (savePath : Option String) (st : SessionState) :
    Except InterpretErr (Image H W) × SessionState :=
  let pl := pred.label data
  let pp := pred.proba data
  let st1 : SessionState := { st with predicted_label := pl, predicted_proba := pp }
  let lab := resolvedLabel labels? pl
  match dictFind corrMats lab with
  | none => (.error (.missingCorrelationEntry lab), st1)
  | some M =>
    let noised := dataNoised s noiseAmount M data nSamples
    let grads := gradientsChunked (fun x => pred.grad x lab) noised nSamples split
    let avg := avgGradients grads
    match presentOutcome visual savePath nSamples split with
    | .error e => (.error e, st1)
    | .ok _ => (.ok avg, { st1 with labels := lab })

/-- Failure of `init_corr_mat`: the shape assertion
`assert data.shape[1] == 3` at line 233 (an `AssertionError`,
distinguishable from the `KeyError` of the missing-entry case). -/
inductive EstErr where
  | shapeError
  deriving DecidableEq

/-- A sample of the reference dataset as seen by the estimator: channel
index (the channel count is a separate parameter, modelling
`data.shape[1]`), then the spatial grid. -/
abbrev EstSample (H W : ℕ) := ℕ → Grid H W

/-- Channel-0 spatial grid of a sample, flattened row-major
(`class_data[:, 0, :, :].reshape(num_samples, num_pixels)`,
lines 250-253). -/
def flat0 {H W : ℕ} (x : EstSample H W) : Fin (H * W) → ℚ :=
  gridToVec (x 0)

/-- Number of dataset samples carrying class label `c`
(`np.where(labels == class_label)[0]`, line 242). -/
def classCount {H W : ℕ} (dataset : List (ℤ × EstSample H W)) (c : ℤ) : ℕ :=
  (dataset.filter (fun p => p.1 == c)).length

/-- Flattened channel-0 feature vectors of the samples of class `c`, in
dataset order. -/
def classFeatures {H W : ℕ} (dataset : List (ℤ × EstSample H W)) (c : ℤ) :
    List (Fin (H * W) → ℚ) :=
  (dataset.filter (fun p => p.1 == c)).map (fun p => flat0 p.2)

/-- Mean of feature `i` over the class samples. -/
def featMean {d : ℕ} (xs : List (Fin d → ℚ)) (i : Fin d) : ℚ :=
  (xs.map (fun x => x i)).sum / (xs.length : ℚ)

/-- Centered second-moment matrix `S i j = Σ_k (x_k i - μ i)(x_k j - μ j)`
over the class samples.  `np.corrcoef` computes the Pearson entry
`S i j / (√(S i i) · √(S j j))` (the `1/(n-1)` factors of `np.cov`
cancel). -/
def sMat {d : ℕ} (xs : List (Fin d → ℚ)) (i j : Fin d) : ℚ :=
  (xs.map (fun x => (x i - featMean xs i) * (x j - featMean xs j))).sum

/-- One entry of `np.corrcoef(class_data, rowvar=False)` (line 256), in
exact arithmetic.  When a diagonal second moment is zero (a constant
feature) the float computation divides zero by zero and the entry is NaN,
modelled as `none`.  Otherwise the entry is the Pearson value, clipped to
`[-1, 1]` as `np.corrcoef` does; the square root of the positive divisor
is abstracted by `sqrtFn` into the value field `K` (instantiated with `ℝ`
and the real square root in the theorems). -/
def corrEntry {K : Type} [LinearOrderedField K] {d : ℕ} (sqrtFn : ℚ → K)
    (xs : List (Fin d → ℚ)) (i j : Fin d) : Option K :=
  if sMat xs i i = 0 ∨ sMat xs j j = 0 then none
  else some (max (-1) (min 1
    ((sMat xs i j : K) / (sqrtFn (sMat xs i i) * sqrtFn (sMat xs j j)))))

/-- Add `epsilon = 1e-5` on the diagonal (lines 259-260); a NaN entry
stays NaN under the addition. -/
def addEpsDiag {K : Type} [LinearOrderedField K] {d : ℕ}
    (M : Fin d → Fin d → Option K) : Fin d → Fin d → Option K :=
  fun i j => (M i j).map (fun v => v + (if i = j then (1 / 100000 : K) else 0))

/-- Correlation matrix stored for one class: `np.corrcoef` of the
flattened class data, then the epsilon diagonal repair. -/
def corrMatrixOf {K : Type} [LinearOrderedField K] {d : ℕ} (sqrtFn : ℚ → K)
    (xs : List (Fin d → ℚ)) : Fin d → Fin d → Option K :=
  addEpsDiag (corrEntry sqrtFn xs)

/-- Classes the estimator iterates over: `specific_classes` when given,
otherwise `np.unique(labels)` (line 237; modelled as deduplication — only
the set of considered classes matters to the produced mapping). -/
def consideredClasses {H W : ℕ} (dataset : List (ℤ × EstSample H W))
    (specific? : Option (List ℤ)) : List ℤ :=
  specific?.getD ((dataset.map Prod.fst).dedup)

/-- One iteration of the estimator's class loop (lines 240-262): skip the
class when it has fewer than 2 samples, otherwise store its correlation
matrix in the dict. -/
def corrStep {K : Type} [LinearOrderedField K] {H W : ℕ} (sqrtFn : ℚ → K)
    (dataset : List (ℤ × EstSample H W))
    (m : List (ℤ × (Fin (H * W) → Fin (H * W) → Option K))) (c : ℤ) :
    List (ℤ × (Fin (H * W) → Fin (H * W) → Option K)) :=
  if (classFeatures dataset c).length < 2 then m
  else dictInsert m c (corrMatrixOf sqrtFn (classFeatures dataset c))

/-- The class-to-matrix dict built by the estimator's loop (the value
returned by `init_corr_mat` when the shape assertion passes). -/
def corrMatsOf {K : Type} [LinearOrderedField K] {H W : ℕ} (sqrtFn : ℚ → K)
    (dataset : List (ℤ × EstSample H W)) (specific? : Option (List ℤ)) :
    List (ℤ × (Fin (H * W) → Fin (H * W) → Option K)) :=
  (consideredClasses dataset specific?).foldl (corrStep sqrtFn dataset) []

/-- `init_corr_mat` (lines 229-272): assert that the channel count is 3,
then fold the class loop over the considered classes starting from the
empty dict.  `channels` models `data.shape[1]`. -/
def initCorrMat {K : Type} [LinearOrderedField K] {H W : ℕ} (sqrtFn : ℚ → K)
    (channels : ℕ)
    (dataset : List (ℤ × EstSample H W)) (specific? : Option (List ℤ)) :
    Except EstErr (List (ℤ × (Fin (H * W) → Fin (H * W) → Option K))) :=
  if channels = 3 then .ok (corrMatsOf sqrtFn dataset specific?)
  else .error .shapeError

/-- An `Option ℝ`-valued matrix is symmetric positive definite in the
float sense when all its entries are actual numbers (no NaN) and the
resulting real matrix is symmetric with positive-definite quadratic form
(equivalently, for a symmetric real matrix, all eigenvalues positive).
A NaN entry defeats both `M = Mᵀ` and every eigenvalue comparison. -/
def isSymmPosDefOpt {d : ℕ} (M : Fin d → Fin d → Option ℝ) : Prop :=
  ∃ A : Matrix (Fin d) (Fin d) ℝ,
    (∀ i j, M i j = some (A i j)) ∧ A.IsSymm ∧ A.PosDef

/-- Parameter list of `def interpret` (lines 45-58), in source order:
name and whether the parameter has a default value. -/
def interpretParams : List (String × Bool) :=
  [("self", false), ("inputs", false), ("labels", true), ("dataset", false),
   ("dataset_labels", true), ("noise_amount", true), ("n_samples", true),
   ("split", true), ("gradient_of", true), ("resize_to", true),
   ("crop_to", true), ("visual", true), ("save_path", true)]

/-- Python's definition-time rule: once a parameter has a default, every
later (positional) parameter must have one; otherwise the `def` is a
`SyntaxError` and the module cannot be compiled. -/
def validParams : List (String × Bool) → Bool
  | [] => true
  | (_, d) :: rest => if d then rest.all (fun p => p.2) else validParams rest

/-- Names exported by `torchvision.models` (external library surface: the
resnet family and the other torchvision architectures; there is no
attribute `resner`, the misspelling imported at line 9). -/
def torchvisionModelNames : List String :=
  ["alexnet", "convnext_tiny", "densenet121", "densenet161", "densenet169",
   "densenet201", "efficientnet_b0", "googlenet", "inception_v3",
   "mnasnet0_5", "mnasnet1_0", "mobilenet_v2", "mobilenet_v3_large",
   "mobilenet_v3_small", "resnet18", "resnet34", "resnet50", "resnet101",
   "resnet152", "resnext50_32x4d", "resnext101_32x8d", "shufflenet_v2_x0_5",
   "shufflenet_v2_x1_0", "squeezenet1_0", "squeezenet1_1", "vgg11", "vgg13",
   "vgg16", "vgg19", "vit_b_16", "wide_resnet50_2", "wide_resnet101_2"]

/-- Names visible to the first executable statements of `interpret`
(lines 93-95): its parameters plus the module-level bindings (imports and
the class itself).  Neither `data` nor `save_path_corr_mat` is among
them, so line 93 (`assert len(data) == 1`) and line 95
(`os.path.exists(save_path_corr_mat)`) each raise `NameError`. -/
def interpretVisibleNames : List String :=
  interpretParams.map Prod.fst ++
  ["np", "os", "tqdm", "InputGradientInterpreter",
   "images_transform_pipeline", "preprocess_save_path",
   "explanation_to_vis", "show_vis_explanation", "save_image", "resner",
   "FunctionalInformationInterpreter"]

/-- Faults that stop a call to `interpret` before its body's algorithmic
part. -/
inductive PyFault where
  | syntaxError
  | importError
  | nameError
  deriving DecidableEq

/-- How far any attempt to call `interpret` gets. -/
inductive CallPhase where
  | failedBeforeSampling (f : PyFault)
  | reachedSampling
  deriving DecidableEq

/-- Staged outcome of any attempt to call `interpret`, independent of the
arguments: Python first compiles the module (rejecting an invalid
parameter list as a `SyntaxError`), then executes the imports (failing if
`torchvision.models` lacks the requested name), and only then can the
body run, whose first statements resolve the names `data` and
`save_path_corr_mat`.  Each stage must succeed before noise sampling,
gradient computation or the return statement can be reached. -/
def interpretCallPhase : CallPhase :=
  if !validParams interpretParams then .failedBeforeSampling .syntaxError
  else if !torchvisionModelNames.contains "resner" then
    .failedBeforeSampling .importError
  else if !(interpretVisibleNames.contains "data"
      && interpretVisibleNames.contains "save_path_corr_mat") then
    .failedBeforeSampling .nameError
  else .reachedSampling

/-- Concrete one-pixel predictor for the closed witness instances: the
gradient of a sample is the sample itself, the predicted class is 0 with
probability 1. -/
def wPred : Predictor 1 1 :=
  { grad := fun x _ => x, label := fun _ => 0, proba := fun _ => 1 }

/-- Concrete one-pixel input image with constant value 6. -/
def wData : Image 1 1 := fun _ _ _ => 6

/-- Concrete 1×1 correlation matrix with entry 1. -/
def wMat : Mat (1 * 1) := fun _ _ => 1

/-- Concrete correlation dict holding `wMat` for class 0. -/
def wMats : List (ℤ × Mat (1 * 1)) := [(0, wMat)]

/-- Concrete sampler for the witnesses: every draw is the (0,0) entry of
the covariance matrix the code passes. -/
def wSampler : Sampler 1 1 :=
  fun M _ _ => M ⟨0, by omega⟩ ⟨0, by omega⟩

/-- Concrete explanation map produced by the witness runs: with input 6,
covariance entry 1 and two draws of value 1, both perturbed samples are
7, the identity gradient keeps them at 7, and the mean is 7. -/
def wMap : Image 1 1 := fun _ _ _ => 7

/-- Concrete session state the witness runs start from. -/
def wState : SessionState := ⟨5, 5, 7⟩

/-- Concrete estimator dataset exhibiting the constant-feature failure:
two samples of class 0 on a 2×1 grid whose first pixel is the constant 1
(zero variance) and whose second pixel is 5 resp. 7. -/
def ds5 : List (ℤ × EstSample 2 1) :=
  [(0, fun _ h _ => if h.1 = 0 then 1 else 5),
   (0, fun _ h _ => if h.1 = 0 then 1 else 7)]

/-- Concrete estimator dataset for the skip-rule witness: class 0 has a
single 1×1 sample (skipped), class 1 has two samples (kept). -/
def ds6 : List (ℤ × EstSample 1 1) :=
  [(0, fun _ _ _ => 1), (1, fun _ _ _ => 2), (1, fun _ _ _ => 4)]

/-- Concrete estimator dataset where every class is skipped: two classes
with one 1×1 sample each. -/
def ds6empty : List (ℤ × EstSample 1 1) :=
  [(0, fun _ _ _ => 1), (1, fun _ _ _ => 2)]

/-- Flat index 0 of the 2×1 grid of `ds5` (the constant pixel). -/
def p00 : Fin (2 * 1) := ⟨0, by omega⟩

theorem take_append_pySlice {α : Type} (xs : List α) {a b : ℕ} (h : a ≤ b) :
    xs.take a ++ pySlice xs a b = xs.take b := by
  unfold pySlice
  conv_lhs =>
    rw [show xs.take a = (xs.take b).take a by
      rw [List.take_take, min_eq_left h]]
  exact List.take_append_drop a (xs.take b)

theorem flatten_range_slices {α : Type} (xs : List α) (c : ℕ) :
    ∀ k, ((List.range k).map
        (fun i => pySlice xs (i * c) ((i + 1) * c))).flatten = xs.take (k * c) := by
  intro k
  induction k with
  | zero => simp
  | succ k ih =>
    rw [List.range_succ, List.map_append, List.flatten_append]
    simp only [List.map_cons, List.map_nil, List.flatten_cons, List.flatten_nil,
      List.append_nil]
    rw [ih, take_append_pySlice xs (Nat.mul_le_mul_right c (Nat.le_succ k))]

theorem flatten_chunkSlices {α : Type} (xs : List α) (n split : ℕ) :
    (chunkSlices xs n split).flatten = xs := by
  unfold chunkSlices
  by_cases h : 1 < split
  · rw [if_pos h, List.flatten_append]
    simp only [List.flatten_cons, List.flatten_nil, List.append_nil]
    rw [flatten_range_slices, Nat.mul_comm (split - 1) (n / split)]
    exact List.take_append_drop _ xs
  · rw [if_neg h]; simp

theorem gradientsChunked_eq_map {α β : Type} (g : α → β) (xs : List α)
    (n split : ℕ) : gradientsChunked g xs n split = xs.map g := by
  unfold gradientsChunked
  rw [← List.map_flatten, flatten_chunkSlices]

theorem length_pySlice {α : Type} (xs : List α) (a b : ℕ) :
    (pySlice xs a b).length = min b xs.length - a := by
  simp [pySlice]

/-- C2: for every `n_samples ≥ 1` and `split ≥ 1`, the chunking scheme of
`interpret` (lines 157-167) partitions the `n_samples` perturbed samples
exactly: the concatenation of the chunks is the original batch in order
(every sample exactly once, none skipped or repeated), the chunk sizes
are `n_samples // split` for the first `split − 1` chunks and the
remainder for the last, and the sizes sum to `n_samples` — also when
`split` does not divide `n_samples`. -/
theorem chunk_partition_exact {α : Type} (xs : List α) (n split : ℕ)
    (_hn : 1 ≤ n) (hs : 1 ≤ split) (hlen : xs.length = n) :
    (chunkSlices xs n split).flatten = xs ∧
    (chunkSlices xs n split).map List.length
      = List.replicate (split - 1) (n / split)
        ++ [n - n / split * (split - 1)] ∧
    ((chunkSlices xs n split).map List.length).sum = n := by
  have hcov := flatten_chunkSlices xs n split
  have hmul : n / split * split ≤ n := Nat.div_mul_le_self n split
  have hsizes : (chunkSlices xs n split).map List.length
      = List.replicate (split - 1) (n / split)
        ++ [n - n / split * (split - 1)] := by
    unfold chunkSlices
    by_cases h : 1 < split
    · rw [if_pos h, List.map_append, List.map_map]
      have hlast : ((xs.drop (n / split * (split - 1))).length)
          = n - n / split * (split - 1) := by
        rw [List.length_drop, hlen]
      have hfull : ∀ i ∈ List.range (split - 1),
          (List.length ∘ fun i => pySlice xs (i * (n / split))
            ((i + 1) * (n / split))) i = n / split := by
        intro i hi
        have hilt : i < split - 1 := List.mem_range.1 hi
        have hle : (i + 1) * (n / split) ≤ n := by
          calc (i + 1) * (n / split) ≤ split * (n / split) :=
                Nat.mul_le_mul_right _ (by omega)
            _ = n / split * split := Nat.mul_comm _ _
            _ ≤ n := hmul
        simp only [Function.comp_apply, length_pySlice, hlen]
        rw [min_eq_left hle, Nat.succ_mul, Nat.add_sub_cancel_left]
      rw [List.map_congr_left hfull]
      simp only [List.map_const', List.length_range, List.map_cons, List.map_nil,
        hlast]
    · have hone : split = 1 := by omega
      subst hone
      rw [if_neg h]
      simp [hlen]
  refine ⟨hcov, hsizes, ?_⟩
  have hle1 : n / split * (split - 1) ≤ n := by
    calc n / split * (split - 1) ≤ n / split * split :=
          Nat.mul_le_mul_left _ (by omega)
      _ ≤ n := hmul
  rw [hsizes, List.sum_append, List.sum_replicate, smul_eq_mul, List.sum_cons,
    List.sum_nil, Nat.mul_comm (split - 1) (n / split)]
  omega

/-- Witness for C2 at the boundary case of the claim: `n_samples = 50`,
`split = 3` gives chunk sizes 16, 16, 18 and exact coverage. -/
theorem chunk_partition_exact_witness :
    (chunkSlices (List.range 50) 50 3).flatten = List.range 50 ∧
    (chunkSlices (List.range 50) 50 3).map List.length
      = List.replicate (3 - 1) (50 / 3) ++ [50 - 50 / 3 * (3 - 1)] ∧
    ((chunkSlices (List.range 50) 50 3).map List.length).sum = 50 :=
  chunk_partition_exact (List.range 50) 50 3 (by decide) (by decide) (by decide)

/-- C1: for a fixed input, resolved label, correlation dict, noise amount
and fixed noise draws (the same sampler), the explanation map returned by
`interpret` with `split = 1` equals the one returned with any other
`split = k`: the per-chunk gradients are concatenated in original sample
order (lines 157-170) and the elementwise mean is taken exactly once
afterwards (line 172), so whenever both runs return a map, the maps are
equal — independent of the chunk boundaries, also when the last chunk is
larger. -/
theorem split_averaging_equiv {H W : ℕ} (pred : Predictor H W)
    (s : Sampler H W) (corrMats : List (ℤ × Mat (H * W))) (data : Image H W)
    (labels? : Option ℤ) (a : ℚ) (n k : ℕ) (visual : Bool)
    (savePath : Option String) (st : SessionState) (r r' : Image H W)
    (h1 : (interpretRun pred s corrMats data labels? a n k visual savePath st).1
      = .ok r)
    (h2 : (interpretRun pred s corrMats data labels? a n 1 visual savePath st).1
      = .ok r') :
    r = r' := by
  rcases hfind : dictFind corrMats (resolvedLabel labels? (pred.label data))
    with _ | M
  · simp only [interpretRun, hfind] at h1
    exact absurd h1 (by simp)
  · simp only [interpretRun, hfind] at h1 h2
    rcases hp1 : presentOutcome visual savePath n k with e | u
    · rw [hp1] at h1; exact absurd h1 (by simp)
    rcases hp2 : presentOutcome visual savePath n 1 with e | u
    · rw [hp2] at h2; exact absurd h2 (by simp)
    rw [hp1] at h1
    rw [hp2] at h2
    simp only [Except.ok.injEq] at h1 h2
    rw [← h1, ← h2, gradientsChunked_eq_map, gradientsChunked_eq_map]

theorem wAvg_eval (k : ℕ) :
    avgGradients (gradientsChunked
        (fun x => wPred.grad x (resolvedLabel (some 0) (wPred.label wData)))
        (dataNoised wSampler 1 wMat wData 2) 2 k) = wMap := by
  rw [gradientsChunked_eq_map]
  funext c h w
  simp [avgGradients, dataNoised, vecToGrid, scaleMat, wPred, wData, wMat,
    wSampler, wMap, List.range_succ]
  norm_num

theorem wRun_ok (k : ℕ) (visual : Bool)
    (hp : presentOutcome visual none 2 k = .ok ()) :
    (interpretRun wPred wSampler wMats wData (some 0) 1 2 k visual none
      wState).1 = .ok wMap := by
  have hfind : dictFind wMats (resolvedLabel (some 0) (wPred.label wData))
      = some wMat := rfl
  simp only [interpretRun, hfind, hp]
  rw [wAvg_eval k]

/-- Witness for C1: a concrete one-pixel run where both the `split = 2`
and the `split = 1` computation return the map with constant value 7. -/
theorem split_averaging_equiv_witness :
    (interpretRun wPred wSampler wMats wData (some 0) 1 2 2 false none
      wState).1 = .ok wMap ∧
    (interpretRun wPred wSampler wMats wData (some 0) 1 2 1 false none
      wState).1 = .ok wMap ∧
    wMap = wMap := by
  have h1 : (interpretRun wPred wSampler wMats wData (some 0) 1 2 2 false none
      wState).1 = .ok wMap := wRun_ok 2 false (by rfl)
  have h2 : (interpretRun wPred wSampler wMats wData (some 0) 1 2 1 false none
      wState).1 = .ok wMap := wRun_ok 1 false (by rfl)
  exact ⟨h1, h2, split_averaging_equiv wPred wSampler wMats wData (some 0) 1 2 2
    false none wState wMap wMap h1 h2⟩

/-- C4: when the resolved target label has no entry in the
correlation-matrix dict, `interpret` fails at line 116 with the missing
key error (`correlation_matrices[labels[0]]` raises `KeyError`) before
any noise is generated: the outcome does not depend on the sampler at
all (the right-hand side does not mention `s`), so there is no fallback
to an identity covariance; the session state still records the predicted
label and probability, which are written before the lookup. -/
theorem missing_label_errors {H W : ℕ} (pred : Predictor H W)
    (s : Sampler H W) (corrMats : List (ℤ × Mat (H * W))) (data : Image H W)
    (labels? : Option ℤ) (a : ℚ) (n k : ℕ) (visual : Bool)
    (savePath : Option String) (st : SessionState)
    (h : dictFind corrMats (resolvedLabel labels? (pred.label data)) = none) :
    interpretRun pred s corrMats data labels? a n k visual savePath st
      = (.error (.missingCorrelationEntry
            (resolvedLabel labels? (pred.label data))),
         { st with predicted_label := pred.label data,
                   predicted_proba := pred.proba data }) := by
  simp only [interpretRun, h]

/-- Witness for C4: with an empty correlation dict, the concrete run
fails with the missing-entry error for the resolved label 0 and records
predicted label 0 and probability 1 over the stale state. -/
theorem missing_label_errors_witness :
    interpretRun wPred wSampler [] wData none 1 2 2 true none wState
      = (.error (.missingCorrelationEntry 0), ⟨0, 1, 7⟩) :=
  missing_label_errors wPred wSampler [] wData none 1 2 2 true none wState
    (by rfl)

/-- C7: each of the `n_samples` perturbed copies is the original input
plus a single draw of the sampler invoked with covariance
`noise_amount * correlation_matrix[label]` (one draw per copy, indexed by
the loop iteration), reshaped row-major to the `(H, W)` grid and added
identically to all 3 channels — the noise term does not depend on the
channel `c`, so all channels of one copy carry exactly the same noise
field; and the map a completing `interpret` call returns is the mean of
the per-sample gradients of exactly these perturbed copies. -/
theorem noise_channel_uniform {H W : ℕ} (pred : Predictor H W)
    (s : Sampler H W) (corrMats : List (ℤ × Mat (H * W))) (data : Image H W)
    (labels? : Option ℤ) (a : ℚ) (n k : ℕ) (visual : Bool)
    (savePath : Option String) (st : SessionState) (M : Mat (H * W)) (i : ℕ)
    (r : Image H W)
    (hM : dictFind corrMats (resolvedLabel labels? (pred.label data)) = some M)
    (hi : i < n)
    (hr : (interpretRun pred s corrMats data labels? a n k visual savePath st).1
      = .ok r) :
    (dataNoised s a M data n)[i]?
      = some (fun c h w => data c h w + s (scaleMat a M) i (pixIdx h w)) ∧
    r = avgGradients (gradientsChunked
        (fun x => pred.grad x (resolvedLabel labels? (pred.label data)))
        (dataNoised s a M data n) n k) := by
  constructor
  · unfold dataNoised
    rw [List.getElem?_map, List.getElem?_range hi]
    rfl
  · simp only [interpretRun, hM] at hr
    rcases hp : presentOutcome visual savePath n k with e | u
    · rw [hp] at hr; exact absurd hr (by simp)
    · rw [hp] at hr
      simp only [Except.ok.injEq] at hr
      exact hr.symm

/-- Witness for C7: the concrete run with two perturbed copies; copy 0 is
the input plus the covariance-determined draw on every channel, and the
returned map is the mean of the gradients of the perturbed copies. -/
theorem noise_channel_uniform_witness :
    (dataNoised wSampler 1 wMat wData 2)[0]?
      = some (fun c h w => wData c h w + wSampler (scaleMat 1 wMat) 0
          (pixIdx h w)) ∧
    wMap = avgGradients (gradientsChunked
        (fun x => wPred.grad x (resolvedLabel (some 0) (wPred.label wData)))
        (dataNoised wSampler 1 wMat wData 2) 2 2) :=
  noise_channel_uniform wPred wSampler wMats wData (some 0) 1 2 2 false none
    wState wMat 0 wMap (by rfl) (by decide) (wRun_ok 2 false (by rfl))

/-- C8: on every call the predicted label and predicted probability of
the unperturbed input are recorded in the session state (overwriting any
previous values — the recorded fields do not depend on the prior state),
the returned value does not depend on the prior state either, and a call
without a supplied label behaves exactly as the same call with the
model's predicted class supplied as the target label (so the predicted
class is what the lookup, the noise sampling and every chunked gradient
call use). -/
theorem label_resolution_session_state {H W : ℕ} (pred : Predictor H W)
    (s : Sampler H W) (corrMats : List (ℤ × Mat (H * W))) (data : Image H W)
    (labels? : Option ℤ) (a : ℚ) (n k : ℕ) (visual : Bool)
    (savePath : Option String) (st st' : SessionState) :
    ((interpretRun pred s corrMats data labels? a n k visual savePath
        st).2.predicted_label = pred.label data) ∧
    ((interpretRun pred s corrMats data labels? a n k visual savePath
        st).2.predicted_proba = pred.proba data) ∧
    ((interpretRun pred s corrMats data labels? a n k visual savePath st).1
      = (interpretRun pred s corrMats data labels? a n k visual savePath
          st').1) ∧
    (interpretRun pred s corrMats data none a n k visual savePath st
      = interpretRun pred s corrMats data (some (pred.label data)) a n k
          visual savePath st) := by
  refine ⟨?_, ?_, ?_, ?_⟩
  · simp only [interpretRun]
    rcases dictFind corrMats (resolvedLabel labels? (pred.label data))
      with _ | M
    · rfl
    · rcases presentOutcome visual savePath n k with e | u <;> rfl
  · simp only [interpretRun]
    rcases dictFind corrMats (resolvedLabel labels? (pred.label data))
      with _ | M
    · rfl
    · rcases presentOutcome visual savePath n k with e | u <;> rfl
  · simp only [interpretRun]
    rcases dictFind corrMats (resolvedLabel labels? (pred.label data))
      with _ | M
    · rfl
    · rcases presentOutcome visual savePath n k with e | u <;> rfl
  · simp only [interpretRun, resolvedLabel, Option.getD_none, Option.getD_some]

/-- C10: the presentation step (lines 174-184) has no effect on the
returned numeric map: whenever a call with any `visual` / `save_path`
configuration returns a map, the same call with presentation disabled
returns the very same map (the block only reads `np.abs(avg_gradients
[0])`, never writing `avg_gradients`). -/
theorem presentation_no_effect {H W : ℕ} (pred : Predictor H W)
    (s : Sampler H W) (corrMats : List (ℤ × Mat (H * W))) (data : Image H W)
    (labels? : Option ℤ) (a : ℚ) (n k : ℕ) (visual : Bool)
    (savePath : Option String) (st : SessionState) (r : Image H W)
    (_hn : 1 ≤ n)
    (hr : (interpretRun pred s corrMats data labels? a n k visual savePath st).1
      = .ok r) :
    (interpretRun pred s corrMats data labels? a n k false none st).1
      = .ok r := by
  rcases hfind : dictFind corrMats (resolvedLabel labels? (pred.label data))
    with _ | M
  · simp only [interpretRun, hfind] at hr
    exact absurd hr (by simp)
  · simp only [interpretRun, hfind] at hr ⊢
    have hoff : presentOutcome false none n k = .ok () := by
      simp [presentOutcome]
    rw [hoff]
    rcases hp : presentOutcome visual savePath n k with e | u
    · rw [hp] at hr; exact absurd hr (by simp)
    · rw [hp] at hr
      simpa using hr

/-- Witness for C10: the concrete run with visualization requested
returns the constant-7 map, and so does the run with presentation
disabled. -/
theorem presentation_no_effect_witness :
    (interpretRun wPred wSampler wMats wData (some 0) 1 2 2 false none
      wState).1 = .ok wMap :=
  presentation_no_effect wPred wSampler wMats wData (some 0) 1 2 2 true none
    wState wMap (by decide) (wRun_ok 2 true (by rfl))

theorem keys_dictInsert {β : Type} (m : List (ℤ × β)) (k : ℤ) (v : β) :
    keys (dictInsert m k v) = if k ∈ keys m then keys m else keys m ++ [k] := by
  by_cases h : k ∈ keys m
  · rw [if_pos h]
    have hany : m.any (fun p => p.1 == k) = true := by
      simp only [List.any_eq_true, beq_iff_eq]
      obtain ⟨p, hp, hpk⟩ := List.mem_map.1 h
      exact ⟨p, hp, hpk⟩
    unfold dictInsert
    rw [if_pos hany]
    unfold keys
    rw [List.map_map]
    apply List.map_congr_left
    intro p hp
    by_cases hpk : p.1 = k <;> simp [hpk]
  · rw [if_neg h]
    have hany : ¬ m.any (fun p => p.1 == k) = true := by
      simp only [List.any_eq_true, beq_iff_eq]
      rintro ⟨p, hp, hpk⟩
      exact h (List.mem_map.2 ⟨p, hp, hpk⟩)
    unfold dictInsert
    rw [if_neg hany]
    unfold keys
    rw [List.map_append]
    rfl

theorem nodup_keys_dictInsert {β : Type} (m : List (ℤ × β)) (k : ℤ) (v : β)
    (h : (keys m).Nodup) : (keys (dictInsert m k v)).Nodup := by
  rw [keys_dictInsert]
  by_cases hk : k ∈ keys m
  · rw [if_pos hk]; exact h
  · rw [if_neg hk]
    rw [List.nodup_append]
    refine ⟨h, List.nodup_singleton k, ?_⟩
    intro a ha hb
    rw [List.mem_singleton] at hb
    subst hb
    exact hk ha

theorem dictFind_eq_none_of_not_mem {β : Type} (m : List (ℤ × β)) (k : ℤ)
    (h : k ∉ keys m) : dictFind m k = none := by
  unfold dictFind
  have hf : m.find? (fun p => p.1 == k) = none := by
    rw [List.find?_eq_none]
    intro p hp
    simp only [beq_iff_eq]
    intro hpk
    exact h (List.mem_map.2 ⟨p, hp, hpk⟩)
  rw [hf]
  rfl

theorem dictFind_isSome_of_mem {β : Type} (m : List (ℤ × β)) (k : ℤ)
    (h : k ∈ keys m) : (dictFind m k).isSome = true := by
  rcases hf : m.find? (fun p => p.1 == k) with _ | q
  · exfalso
    rw [List.find?_eq_none] at hf
    obtain ⟨p, hp, hpk⟩ := List.mem_map.1 h
    exact hf p hp (by simp [hpk])
  · simp [dictFind, hf]

theorem classFeatures_length {H W : ℕ} (ds : List (ℤ × EstSample H W))
    (c : ℤ) : (classFeatures ds c).length = classCount ds c := by
  simp [classFeatures, classCount]

theorem mem_keys_corrStep {K : Type} [LinearOrderedField K] {H W : ℕ}
    (sqrtFn : ℚ → K) (ds : List (ℤ × EstSample H W))
    (m : List (ℤ × (Fin (H * W) → Fin (H * W) → Option K))) (a c : ℤ) :
    c ∈ keys (corrStep sqrtFn ds m a)
      ↔ c ∈ keys m ∨ (c = a ∧ 2 ≤ (classFeatures ds a).length) := by
  unfold corrStep
  by_cases hlen : (classFeatures ds a).length < 2
  · rw [if_pos hlen]
    constructor
    · exact Or.inl
    · rintro (h | ⟨rfl, h2⟩)
      · exact h
      · omega
  · rw [if_neg hlen]
    rw [keys_dictInsert]
    by_cases ha : a ∈ keys m
    · rw [if_pos ha]
      constructor
      · exact Or.inl
      · rintro (h | ⟨rfl, h2⟩)
        · exact h
        · exact ha
    · rw [if_neg ha]
      rw [List.mem_append, List.mem_singleton]
      constructor
      · rintro (h | rfl)
        · exact Or.inl h
        · exact Or.inr ⟨rfl, by omega⟩
      · rintro (h | ⟨rfl, h2⟩)
        · exact Or.inl h
        · exact Or.inr rfl

theorem mem_keys_corrFold {K : Type} [LinearOrderedField K] {H W : ℕ}
    (sqrtFn : ℚ → K) (ds : List (ℤ × EstSample H W)) :
    ∀ (cs : List ℤ) (m : List (ℤ × (Fin (H * W) → Fin (H * W) → Option K)))
      (c : ℤ),
      c ∈ keys (cs.foldl (corrStep sqrtFn ds) m)
        ↔ c ∈ keys m ∨ (c ∈ cs ∧ 2 ≤ (classFeatures ds c).length) := by
  intro cs
  induction cs with
  | nil => intro m c; simp
  | cons a cs ih =>
    intro m c
    rw [List.foldl_cons, ih, mem_keys_corrStep]
    constructor
    · rintro ((h | ⟨rfl, h2⟩) | ⟨hc, h2⟩)
      · exact Or.inl h
      · exact Or.inr ⟨List.mem_cons_self _ _, h2⟩
      · exact Or.inr ⟨List.mem_cons_of_mem _ hc, h2⟩
    · rintro (h | ⟨hc, h2⟩)
      · exact Or.inl (Or.inl h)
      · rcases List.mem_cons.1 hc with rfl | hcs
        · exact Or.inl (Or.inr ⟨rfl, h2⟩)
        · exact Or.inr ⟨hcs, h2⟩

theorem nodup_keys_corrFold {K : Type} [LinearOrderedField K] {H W : ℕ}
    (sqrtFn : ℚ → K) (ds : List (ℤ × EstSample H W)) :
    ∀ (cs : List ℤ) (m : List (ℤ × (Fin (H * W) → Fin (H * W) → Option K))),
      (keys m).Nodup → (keys (cs.foldl (corrStep sqrtFn ds) m)).Nodup := by
  intro cs
  induction cs with
  | nil => intro m h; exact h
  | cons a cs ih =>
    intro m h
    rw [List.foldl_cons]
    apply ih
    unfold corrStep
    by_cases hlen : (classFeatures ds a).length < 2
    · rw [if_pos hlen]; exact h
    · rw [if_neg hlen]; exact nodup_keys_dictInsert _ _ _ h

theorem corrFold_all_skip {K : Type} [LinearOrderedField K] {H W : ℕ}
    (sqrtFn : ℚ → K) (ds : List (ℤ × EstSample H W)) :
    ∀ cs : List ℤ, (∀ c ∈ cs, (classFeatures ds c).length < 2) →
      cs.foldl (corrStep sqrtFn ds) [] = [] := by
  intro cs
  induction cs with
  | nil => intro _; rfl
  | cons a cs ih =>
    intro h
    rw [List.foldl_cons]
    have hstep : corrStep sqrtFn ds [] a = [] := by
      unfold corrStep
      rw [if_pos (h a (List.mem_cons_self a cs))]
    rw [hstep]
    exact ih (fun c hc => h c (List.mem_cons_of_mem a hc))

/-- C6: for every class the estimator considers, a class with 0 or 1
reference samples gets no entry in the returned mapping (a later lookup
is a missing key), a class with at least 2 samples gets exactly one entry
(whose matrix is square of shape `(H*W, H*W)` by the type
`Fin (H*W) → Fin (H*W) → Option ℝ` of the stored value), and when every
considered class is below the minimum the estimator returns an empty
mapping rather than an error. -/
theorem estimator_skip_rule {H W : ℕ} (sqrtFn : ℚ → ℝ)
    (dataset : List (ℤ × EstSample H W)) (specific? : Option (List ℤ))
    (c : ℤ) (hc : c ∈ consideredClasses dataset specific?) :
    initCorrMat sqrtFn 3 dataset specific?
      = .ok (corrMatsOf sqrtFn dataset specific?) ∧
    (classCount dataset c < 2 →
      dictFind (corrMatsOf sqrtFn dataset specific?) c = none) ∧
    (2 ≤ classCount dataset c →
      (keys (corrMatsOf sqrtFn dataset specific?)).count c = 1 ∧
      (dictFind (corrMatsOf sqrtFn dataset specific?) c).isSome = true) ∧
    ((consideredClasses dataset specific?).all
        (fun x => decide (classCount dataset x < 2)) = true →
      corrMatsOf sqrtFn dataset specific? = []) := by
  refine ⟨by simp [initCorrMat], ?_, ?_, ?_⟩
  · intro hlt
    apply dictFind_eq_none_of_not_mem
    unfold corrMatsOf
    rw [mem_keys_corrFold]
    rintro (hk | ⟨_, h2⟩)
    · simp [keys] at hk
    · rw [classFeatures_length] at h2; omega
  · intro h2
    have hmem : c ∈ keys (corrMatsOf sqrtFn dataset specific?) := by
      unfold corrMatsOf
      rw [mem_keys_corrFold]
      exact Or.inr ⟨hc, by rw [classFeatures_length]; omega⟩
    have hnd : (keys (corrMatsOf sqrtFn dataset specific?)).Nodup := by
      unfold corrMatsOf
      exact nodup_keys_corrFold sqrtFn dataset _ [] (by simp [keys])
    exact ⟨List.count_eq_one_of_mem hnd hmem, dictFind_isSome_of_mem _ _ hmem⟩
  · intro hall
    unfold corrMatsOf
    apply corrFold_all_skip
    intro x hx
    have hx2 := List.all_eq_true.1 hall x hx
    rw [decide_eq_true_eq] at hx2
    rw [classFeatures_length]
    exact hx2

/-- Witness for C6 on concrete datasets: in `ds6`, class 0 (one sample)
has no entry while class 1 (two samples) has exactly one entry; in
`ds6empty` every class is skipped and the mapping is empty. -/
theorem estimator_skip_rule_witness :
    dictFind (corrMatsOf (fun _ => (0 : ℝ)) ds6 none) 0 = none ∧
    (keys (corrMatsOf (fun _ => (0 : ℝ)) ds6 none)).count 1 = 1 ∧
    (dictFind (corrMatsOf (fun _ => (0 : ℝ)) ds6 none) 1).isSome = true ∧
    corrMatsOf (fun _ => (0 : ℝ)) ds6empty none = [] := by
  refine ⟨?_, ?_, ?_, ?_⟩
  · exact (estimator_skip_rule (fun _ => 0) ds6 none 0 (by decide)).2.1
      (by decide)
  · exact ((estimator_skip_rule (fun _ => 0) ds6 none 1 (by decide)).2.2.1
      (by decide)).1
  · exact ((estimator_skip_rule (fun _ => 0) ds6 none 1 (by decide)).2.2.1
      (by decide)).2
  · exact (estimator_skip_rule (fun _ => 0) ds6empty none 0 (by decide)).2.2.2
      (by decide)

/-- C9: whenever the input tensor's channel count is below 3, the
estimator fails with the shape error (the channel assertion at line 233,
distinguishable from the missing-key error of `interpret`) and produces
no correlation matrices: the result is the bare error, not a mapping. -/
theorem estimator_shape_error {H W : ℕ} (sqrtFn : ℚ → ℝ) (channels : ℕ)
    (dataset : List (ℤ × EstSample H W)) (specific? : Option (List ℤ))
    (h : channels < 3) :
    initCorrMat sqrtFn channels dataset specific? = .error .shapeError := by
  unfold initCorrMat
  rw [if_neg (by omega)]

/-- Witness for C9: a single-channel dataset makes the estimator fail
with the shape error. -/
theorem estimator_shape_error_witness :
    initCorrMat (fun _ => (0 : ℝ)) 1 ds6 none = .error .shapeError :=
  estimator_shape_error (fun _ => 0) 1 ds6 none (by decide)

/-- C5 (refuting evaluation): on the concrete reference dataset `ds5`,
whose class 0 has two samples with a constant first pixel, the estimator
stores a matrix whose entry at the constant feature is NaN — `corrcoef`
divides zero by zero there and adding `epsilon` on the diagonal leaves
NaN — so the produced matrix is not symmetric positive definite in any
sense (it is not even real-valued), for every possible square-root
function: the claim that all produced matrices are symmetric and
strictly positive definite fails exactly in the constant-feature case
the spec includes. -/
theorem corr_mat_nan_on_constant_feature (sqrtFn : ℚ → ℝ) :
    initCorrMat sqrtFn 3 ds5 none = .ok (corrMatsOf sqrtFn ds5 none) ∧
    dictFind (corrMatsOf sqrtFn ds5 none) 0
      = some (corrMatrixOf sqrtFn (classFeatures ds5 0)) ∧
    corrMatrixOf sqrtFn (classFeatures ds5 0) p00 p00 = none ∧
    ¬ isSymmPosDefOpt (corrMatrixOf sqrtFn (classFeatures ds5 0)) := by
  have hS : sMat (classFeatures ds5 0) p00 p00 = 0 := by
    norm_num [sMat, classFeatures, featMean, flat0, gridToVec, ds5, p00]
  have hnan : corrMatrixOf sqrtFn (classFeatures ds5 0) p00 p00 = none := by
    unfold corrMatrixOf addEpsDiag corrEntry
    rw [if_pos (Or.inl hS)]
    rfl
  refine ⟨by simp [initCorrMat], by rfl, hnan, ?_⟩
  rintro ⟨A, hA, _, _⟩
  have hcontr := hA p00 p00
  rw [hnan] at hcontr
  exact Option.noConfusion hcontr

/-- C3: the module can never execute `interpret`'s sampling, gradient or
return code: the parameter list of `def interpret` is invalid Python (a
non-default parameter follows defaulted ones, a `SyntaxError` at
compilation of the module), the module imports the nonexistent name
`resner` from `torchvision.models`, and the first executable statements
of the body read the unbound names `data` and `save_path_corr_mat`; the
staged call model therefore fails before sampling for every call, at the
first stage already. -/
theorem interpret_never_reaches_sampling :
    validParams interpretParams = false ∧
    torchvisionModelNames.contains "resner" = false ∧
    interpretVisibleNames.contains "data" = false ∧
    interpretVisibleNames.contains "save_path_corr_mat" = false ∧
    interpretCallPhase = .failedBeforeSampling .syntaxError ∧
    interpretCallPhase ≠ .reachedSampling := by
  decide

end FuncInfo
